import Mathlib

/-!
Verification of the SSE relay in `api_client.py` (repository rkui2api).

Strings of the Python program are embedded as `List Char`.  Each Lean
definition is a shallow embedding of one piece of the source:

* `pySplitLines`   - the `while "\n" in buffer: line, buffer = buffer.split("\n", 1)`
                     loop used in both `handle_stream_response.generate`
                     (lines 94-95) and `handle_non_stream_response` (177-178);
* `feedChunk` / `runReassembler` - feeding successive `aiter_text` chunks
                     through that loop with the carried `buffer`;
* `subDataWs`      - `re.sub(r'^data:\s*', '', line)` (line 193);
* `subDoubleData`  - `re.sub(r'^data:\s*data:', 'data:', line)` (line 123);
* the JSON parser  - a model of `json.loads` (strict mode);
* `processBufferedLine`, `handle_non_stream_response` - the buffered handler;
* `stepLine`, `streamRun` - the streaming generator;
* `call_api`       - the top-level wrapper with its `try`/`except`.
-/

/-- The character list of a string literal. -/
def chars (s : String) : List Char := s.data

/-- Boolean prefix test on character lists (`str.startswith`). -/
def startsWithL : List Char → List Char → Bool
  | [], _ => true
  | _ :: _, [] => false
  | p :: ps, c :: cs => p == c && startsWithL ps cs

/-- Boolean suffix test on character lists (`str.endswith`). -/
def endsWithL (p s : List Char) : Bool := startsWithL p.reverse s.reverse

/-- Python's whitespace class (the ASCII part of `\s` and of `str.strip()`). -/
def pyWs (c : Char) : Bool :=
  c == ' ' || c == '\t' || c == '\n' || c == '\r' || c == '\x0b' || c == '\x0c'

/-- `str.strip()`: drop whitespace from both ends. -/
def pyStrip (s : List Char) : List Char :=
  ((s.dropWhile pyWs).reverse.dropWhile pyWs).reverse

/-- Concatenation of a list of chunks: the full upstream byte stream
(`response.text`, which `aiter_text` delivers in arbitrary pieces). -/
def catChunks : List (List Char) → List Char
  | [] => []
  | c :: cs => c ++ catChunks cs

/-- `buffer.split("\n", 1)` when a newline is present: the part before the
first newline and the part after it. -/
def splitFirst : List Char → Option (List Char × List Char)
  | [] => none
  | c :: s =>
    if c = '\n' then some ([], s)
    else (splitFirst s).map (fun p => (c :: p.1, p.2))

/-- One step of building the newline split from the left: prepend a
non-newline character to the first (possibly still open) line. -/
def consFirst (c : Char) : List (List Char) × List Char → List (List Char) × List Char
  | ([], b) => ([], c :: b)
  | (l :: ls, b) => ((c :: l) :: ls, b)

/-- Denotation of the line-splitting loop: the complete newline-terminated
lines of `s` (in order) and the unterminated remainder. -/
def nlSplit : List Char → List (List Char) × List Char
  | [] => ([], [])
  | c :: s =>
    if c = '\n' then ([] :: (nlSplit s).1, (nlSplit s).2)
    else consFirst c (nlSplit s)

/-- Fuel-driven form of the Python loop
`while "\n" in buffer: line, buffer = buffer.split("\n", 1)`. -/
def goSplit : Nat → List Char → List (List Char) × List Char
  | 0, buf => ([], buf)
  | fuel + 1, buf =>
    match splitFirst buf with
    | none => ([], buf)
    | some (l, r) => ((l :: (goSplit fuel r).1), (goSplit fuel r).2)

/-- The Python line-splitting loop itself (the fuel `buf.length + 1` is an
upper bound on the number of iterations, so it never runs out). -/
def pySplitLines (buf : List Char) : List (List Char) × List Char :=
  goSplit (buf.length + 1) buf

theorem splitFirst_none {s : List Char} (h : splitFirst s = none) : '\n' ∉ s := by
  induction s with
  | nil => simp
  | cons c s ih =>
    simp only [splitFirst] at h
    by_cases hc : c = '\n'
    · simp [hc] at h
    · simp only [if_neg hc, Option.map_eq_none'] at h
      simp only [List.mem_cons, not_or]
      exact ⟨fun hh => hc hh.symm, ih h⟩

theorem splitFirst_some {s l r : List Char} (h : splitFirst s = some (l, r)) :
    s = l ++ '\n' :: r ∧ '\n' ∉ l := by
  induction s generalizing l r with
  | nil => simp [splitFirst] at h
  | cons c s ih =>
    simp only [splitFirst] at h
    by_cases hc : c = '\n'
    · rw [if_pos hc] at h
      obtain ⟨h1, h2⟩ := Prod.mk.injEq .. ▸ Option.some.injEq .. ▸ h
      subst hc; subst h1; subst h2; simp
    · rw [if_neg hc] at h
      match hs : splitFirst s with
      | none => rw [hs] at h; simp at h
      | some (l', r') =>
        rw [hs] at h
        simp only [Option.map_some', Option.some.injEq, Prod.mk.injEq] at h
        obtain ⟨h1, h2⟩ := h
        obtain ⟨hs1, hs2⟩ := ih hs
        subst h1; subst h2
        constructor
        · simp [hs1]
        · simp only [List.mem_cons, not_or]
          exact ⟨fun hh => hc hh.symm, hs2⟩

theorem nlSplit_no_nl {s : List Char} (h : '\n' ∉ s) : nlSplit s = ([], s) := by
  induction s with
  | nil => rfl
  | cons c s ih =>
    simp only [List.mem_cons, not_or] at h
    simp [nlSplit, Ne.symm h.1, ih h.2, consFirst]

theorem nlSplit_line_append {l : List Char} (r : List Char) (h : '\n' ∉ l) :
    nlSplit (l ++ '\n' :: r) = (l :: (nlSplit r).1, (nlSplit r).2) := by
  induction l with
  | nil => simp [nlSplit]
  | cons c l ih =>
    simp only [List.mem_cons, not_or] at h
    simp [nlSplit, Ne.symm h.1, ih h.2, consFirst]

theorem goSplit_eq_nlSplit : ∀ fuel buf, buf.length < fuel → goSplit fuel buf = nlSplit buf := by
  intro fuel
  induction fuel with
  | zero => intro buf h; omega
  | succ f ih =>
    intro buf h
    simp only [goSplit]
    split
    next hs => rw [nlSplit_no_nl (splitFirst_none hs)]
    next l r hs =>
      obtain ⟨h1, h2⟩ := splitFirst_some hs
      have hr : r.length < f := by
        subst h1
        simp only [List.length_append, List.length_cons] at h
        omega
      rw [ih r hr, h1, nlSplit_line_append r h2]

theorem pySplitLines_eq (buf : List Char) : pySplitLines buf = nlSplit buf :=
  goSplit_eq_nlSplit (buf.length + 1) buf (Nat.lt_succ_self _)

theorem nlSplit_append (s t : List Char) :
    nlSplit (s ++ t) =
      ((nlSplit s).1 ++ (nlSplit ((nlSplit s).2 ++ t)).1,
        (nlSplit ((nlSplit s).2 ++ t)).2) := by
  induction s with
  | nil => simp [nlSplit]
  | cons c s ih =>
    by_cases hc : c = '\n'
    · subst hc
      simp only [List.cons_append, nlSplit, if_pos rfl, ih]
      simp [ih]
    · simp only [List.cons_append, nlSplit, if_neg hc, List.append_eq]
      rw [ih]
      rcases hns : nlSplit s with ⟨ls1, b⟩
      cases ls1 with
      | nil =>
        simp only [consFirst, List.nil_append, List.cons_append, nlSplit, if_neg hc]
        rfl
      | cons l ls => simp [consFirst]

theorem nlSplit_snd_no_nl (s : List Char) : '\n' ∉ (nlSplit s).2 := by
  induction s with
  | nil => simp [nlSplit]
  | cons c s ih =>
    by_cases hc : c = '\n'
    · simpa [nlSplit, hc] using ih
    · simp only [nlSplit, if_neg hc]
      rcases hns : nlSplit s with ⟨ls1, b⟩
      rw [hns] at ih
      cases ls1 with
      | nil =>
        simp only [consFirst, List.mem_cons, not_or]
        exact ⟨fun hh => hc hh.symm, by simpa using ih⟩
      | cons l ls => simpa [consFirst] using ih

theorem nlSplit_fst_ne_nil {s : List Char} (h : '\n' ∈ s) : (nlSplit s).1 ≠ [] := by
  induction s with
  | nil => simp at h
  | cons c s ih =>
    by_cases hc : c = '\n'
    · simp [nlSplit, hc]
    · have hs : '\n' ∈ s := by
        rcases List.mem_cons.mp h with h1 | h1
        · exact absurd h1.symm hc
        · exact h1
      simp only [nlSplit, if_neg hc]
      rcases hns : nlSplit s with ⟨ls1, b⟩
      rw [hns] at ih
      cases ls1 with
      | nil => exact absurd rfl (ih hs)
      | cons l ls => simp [consFirst]

/-- The suffix of `s` strictly after the last newline in `s` (all of `s`
when `s` has no newline): the spec's invariant value for the carried
reassembly buffer. -/
def afterLastNl : List Char → List Char
  | [] => []
  | c :: s => if '\n' ∈ s then afterLastNl s else if c = '\n' then s else c :: s

theorem nlSplit_snd_afterLastNl (s : List Char) : (nlSplit s).2 = afterLastNl s := by
  induction s with
  | nil => rfl
  | cons c s ih =>
    by_cases hm : '\n' ∈ s
    · by_cases hc : c = '\n'
      · simp [nlSplit, hc, afterLastNl, hm, ih]
      · simp only [nlSplit, if_neg hc, afterLastNl, if_pos hm]
        rcases hns : nlSplit s with ⟨ls1, b⟩
        rw [hns] at ih
        cases ls1 with
        | nil => exact absurd (by simpa using congrArg Prod.fst hns) (nlSplit_fst_ne_nil hm)
        | cons l ls => simpa [consFirst] using ih
    · have hns : nlSplit s = ([], s) := nlSplit_no_nl hm
      by_cases hc : c = '\n'
      · simp [nlSplit, hc, afterLastNl, hm, hns]
      · simp [nlSplit, hc, afterLastNl, hm, hns, consFirst]

theorem afterLastNl_no_nl (s : List Char) : '\n' ∉ afterLastNl s := by
  rw [← nlSplit_snd_afterLastNl]
  exact nlSplit_snd_no_nl s

theorem afterLastNl_is_suffix (s : List Char) :
    ∃ pre, s = pre ++ afterLastNl s ∧ (pre = [] ∨ ∃ q, pre = q ++ ['\n']) := by
  induction s with
  | nil => exact ⟨[], rfl, Or.inl rfl⟩
  | cons c s ih =>
    by_cases hm : '\n' ∈ s
    · obtain ⟨pre, hpre, hend⟩ := ih
      refine ⟨c :: pre, ?_, Or.inr ?_⟩
      · simp [afterLastNl, hm, ← hpre]
      · rcases hend with h1 | ⟨q, hq⟩
        · subst h1
          rw [hpre] at hm
          exact absurd hm (by simpa using afterLastNl_no_nl s)
        · exact ⟨c :: q, by simp [hq]⟩
    · by_cases hc : c = '\n'
      · subst hc
        exact ⟨['\n'], by simp [afterLastNl, hm], Or.inr ⟨[], rfl⟩⟩
      · exact ⟨[], by simp [afterLastNl, hm, hc], Or.inl rfl⟩

/-- `buffer += chunk` followed by the line-splitting loop: lines 91-95 of the
streaming handler and lines 174-178 of the buffered handler.  The state is
(lines produced so far, carried buffer). -/
def feedChunk (st : List (List Char) × List Char) (chunk : List Char) :
    List (List Char) × List Char :=
  ((st.1 ++ (pySplitLines (st.2 ++ chunk)).1), (pySplitLines (st.2 ++ chunk)).2)

/-- Feeding every upstream chunk in order through the line reassembler,
starting from an empty buffer. -/
def runReassembler (chunks : List (List Char)) : List (List Char) × List Char :=
  chunks.foldl feedChunk ([], [])

theorem runReassembler_general :
    ∀ (chunks : List (List Char)) (ls0 : List (List Char)) (b0 : List Char),
      '\n' ∉ b0 →
      chunks.foldl feedChunk (ls0, b0) =
        (ls0 ++ (nlSplit (b0 ++ catChunks chunks)).1,
          (nlSplit (b0 ++ catChunks chunks)).2) := by
  intro chunks
  induction chunks with
  | nil =>
    intro ls0 b0 hb
    simp [catChunks, nlSplit_no_nl hb]
  | cons c cs ih =>
    intro ls0 b0 hb
    simp only [List.foldl_cons, feedChunk, pySplitLines_eq]
    rw [ih _ _ (nlSplit_snd_no_nl (b0 ++ c))]
    have hassoc : b0 ++ catChunks (c :: cs) = (b0 ++ c) ++ catChunks cs := by
      simp [catChunks]
    rw [hassoc, nlSplit_append (b0 ++ c) (catChunks cs)]
    simp

theorem runReassembler_spec (chunks : List (List Char)) :
    runReassembler chunks =
      ((nlSplit (catChunks chunks)).1, afterLastNl (catChunks chunks)) := by
  rw [runReassembler, runReassembler_general chunks [] [] (by simp)]
  simp [nlSplit_snd_afterLastNl]

/-- `re.sub(r'^data:\s*', '', line)` (lines 193 and 198).  The pattern is
anchored; when it does not match the string is returned unchanged.  Greedy
`\s*` with backtracking equals maximal munch here because no continuation is
required after it. -/
def subDataWs (s : List Char) : List Char :=
  if startsWithL (chars "data:") s then (s.drop 5).dropWhile pyWs else s

/-- `re.sub(r'^data:\s*data:', 'data:', line)` (line 123).  Greedy `\s*`
equals maximal munch: a shorter whitespace run would put a whitespace
character where the pattern needs `'d'`, so backtracking never helps. -/
def subDoubleData (s : List Char) : List Char :=
  if startsWithL (chars "data:") s then
    let r := (s.drop 5).dropWhile pyWs
    if startsWithL (chars "data:") r then chars "data:" ++ r.drop 5 else s
  else s

/-- JSON values as produced by `json.loads`.  Numbers keep their raw
characters: no relay operation inspects a numeric value. -/
inductive Json where
  | jnull
  | jbool (b : Bool)
  | jnum (raw : List Char)
  | jstr (s : List Char)
  | jarr (xs : List Json)
  | jobj (fs : List (List Char × Json))

/-- The opening curly bracket character. -/
def lbrace : Char := Char.ofNat 123

/-- The closing curly bracket character. -/
def rbrace : Char := Char.ofNat 125

/-- JSON inter-token whitespace (what `json.loads` skips between tokens). -/
def jsonWs (c : Char) : Bool := c == ' ' || c == '\t' || c == '\n' || c == '\r'

/-- Skip JSON whitespace. -/
def jws (s : List Char) : List Char := s.dropWhile jsonWs

/-- Decimal digit test. -/
def digit (c : Char) : Bool := decide (48 ≤ c.toNat ∧ c.toNat ≤ 57)

/-- Hexadecimal digit value, for `\uXXXX` escapes. -/
def hexD (c : Char) : Option Nat :=
  if 48 ≤ c.toNat ∧ c.toNat ≤ 57 then some (c.toNat - 48)
  else if 97 ≤ c.toNat ∧ c.toNat ≤ 102 then some (c.toNat - 87)
  else if 65 ≤ c.toNat ∧ c.toNat ≤ 70 then some (c.toNat - 55)
  else none

/-- Single-character JSON string escapes. -/
def escChar (e : Char) : Option Char :=
  if e = '"' then some '"'
  else if e = '\\' then some '\\'
  else if e = '/' then some '/'
  else if e = 'b' then some '\x08'
  else if e = 'f' then some '\x0c'
  else if e = 'n' then some '\n'
  else if e = 'r' then some '\r'
  else if e = 't' then some '\t'
  else none

/-- Body of a JSON string after the opening quote: returns the decoded
content and the remainder after the closing quote.  Strict mode: raw
control characters are rejected. -/
def parseStrBody : List Char → Option (List Char × List Char)
  | [] => none
  | c :: rest =>
    if c = '"' then some ([], rest)
    else if c = '\\' then
      match rest with
      | [] => none
      | e :: r2 =>
        if e = 'u' then
          match r2 with
          | a :: b :: c2 :: d :: r3 =>
            match hexD a, hexD b, hexD c2, hexD d with
            | some ha, some hb, some hc, some hd =>
              (parseStrBody r3).map
                (fun p => (Char.ofNat (((ha * 16 + hb) * 16 + hc) * 16 + hd) :: p.1, p.2))
            | _, _, _, _ => none
          | _ => none
        else
          match escChar e with
          | some ce => (parseStrBody r2).map (fun p => (ce :: p.1, p.2))
          | none => none
    else if c.toNat < 32 then none
    else (parseStrBody rest).map (fun p => (c :: p.1, p.2))

/-- A JSON number, following the scanner regex of the `json` module:
`(-?(?:0|[1-9]\d*))(\.\d+)?([eE][-+]?\d+)?`.  Returns the raw matched
characters and the remainder. -/
def parseNum (s : List Char) : Option (List Char × List Char) :=
  let p := match s with
    | '-' :: r => ((['-'] : List Char), r)
    | _ => (([] : List Char), s)
  match p.2 with
  | [] => none
  | c :: _ =>
    if digit c = false then none
    else
      let ip := p.2.takeWhile digit
      let r1 := p.2.dropWhile digit
      if 1 < ip.length ∧ ip.head? = some '0' then none
      else
        let fr := match r1 with
          | '.' :: r =>
            if r.takeWhile digit = [] then (([] : List Char), r1)
            else ('.' :: r.takeWhile digit, r.dropWhile digit)
          | _ => (([] : List Char), r1)
        let ep := match fr.2 with
          | c2 :: r =>
            if c2 = 'e' ∨ c2 = 'E' then
              let q := match r with
                | '+' :: r2 => ((['+'] : List Char), r2)
                | '-' :: r2 => ((['-'] : List Char), r2)
                | _ => (([] : List Char), r)
              if q.2.takeWhile digit = [] then (([] : List Char), fr.2)
              else (c2 :: (q.1 ++ q.2.takeWhile digit), q.2.dropWhile digit)
            else (([] : List Char), fr.2)
          | [] => (([] : List Char), fr.2)
        some (p.1 ++ ip ++ fr.1 ++ ep.1, ep.2)

mutual

/-- One JSON value starting at the head of the input (no leading
whitespace), with the remainder.  Fuel bounds the recursion depth; the
callers pass enough fuel for any input of the given length. -/
def parseVal : Nat → List Char → Option (Json × List Char)
  | 0, _ => none
  | fuel + 1, s =>
    match s with
    | [] => none
    | c :: rest =>
      if c = '"' then (parseStrBody rest).map (fun p => (Json.jstr p.1, p.2))
      else if c = lbrace then
        match jws rest with
        | [] => none
        | c2 :: r2 =>
          if c2 = rbrace then some (Json.jobj [], r2)
          else (parseObjItems fuel (c2 :: r2)).map (fun p => (Json.jobj p.1, p.2))
      else if c = '[' then
        match jws rest with
        | [] => none
        | c2 :: r2 =>
          if c2 = ']' then some (Json.jarr [], r2)
          else (parseArrItems fuel (c2 :: r2)).map (fun p => (Json.jarr p.1, p.2))
      else if c = 't' then
        match rest with
        | 'r' :: 'u' :: 'e' :: r => some (Json.jbool true, r)
        | _ => none
      else if c = 'f' then
        match rest with
        | 'a' :: 'l' :: 's' :: 'e' :: r => some (Json.jbool false, r)
        | _ => none
      else if c = 'n' then
        match rest with
        | 'u' :: 'l' :: 'l' :: r => some (Json.jnull, r)
        | _ => none
      else if c = '-' ∨ digit c then (parseNum s).map (fun p => (Json.jnum p.1, p.2))
      else none

/-- Comma-separated JSON array items up to the closing bracket. -/
def parseArrItems : Nat → List Char → Option (List Json × List Char)
  | 0, _ => none
  | fuel + 1, s =>
    match parseVal fuel s with
    | none => none
    | some (v, r) =>
      match jws r with
      | ',' :: r2 => (parseArrItems fuel (jws r2)).map (fun p => (v :: p.1, p.2))
      | c :: r2 => if c = ']' then some ([v], r2) else none
      | [] => none

/-- Comma-separated JSON object members up to the closing curly bracket. -/
def parseObjItems : Nat → List Char → Option (List (List Char × Json) × List Char)
  | 0, _ => none
  | fuel + 1, s =>
    match s with
    | '"' :: r =>
      match parseStrBody r with
      | none => none
      | some (k, r1) =>
        match jws r1 with
        | ':' :: r2 =>
          match parseVal fuel (jws r2) with
          | none => none
          | some (v, r3) =>
            match jws r3 with
            | ',' :: r4 => (parseObjItems fuel (jws r4)).map (fun p => ((k, v) :: p.1, p.2))
            | c :: r4 => if c = rbrace then some ([(k, v)], r4) else none
            | [] => none
        | _ => none
    | _ => none

end

/-- `json.loads`: one JSON document with optional surrounding whitespace;
anything left over (Python's "Extra data") makes the parse fail. -/
def parseJson (s : List Char) : Option Json :=
  match parseVal (2 * s.length + 2) (jws s) with
  | some (v, r) => if jws r = [] then some v else none
  | none => none

/-- Last-wins key lookup, matching the dict that `json.loads` builds. -/
def jLookup (fs : List (List Char × Json)) (k : List Char) : Option Json :=
  match fs with
  | [] => none
  | (k', v) :: rest =>
    match jLookup rest k with
    | some r => some r
    | none => if k' = k then some v else none

/-- Lines 233-236 (and the identical 253-256): the fragment a parsed value
contributes to `full_content`.  Every Python path that appends nothing -
`"choices" not in data`, empty `choices`, a non-`dict` element raising
`AttributeError` into the swallowing `except`, a non-`str` content raising
`TypeError` - is the empty fragment here, which is what `full_content`
receives in each of those cases. -/
def extractFragment (j : Json) : List Char :=
  match j with
  | Json.jobj fs =>
    match jLookup fs (chars "choices") with
    | some (Json.jarr (c0 :: _)) =>
      match c0 with
      | Json.jobj cf =>
        match jLookup cf (chars "delta") with
        | some (Json.jobj df) =>
          match jLookup df (chars "content") with
          | some (Json.jstr s) => s
          | some _ => []
          | none => []
        | some _ => []
        | none => []
      | _ => []
    | _ => []
  | _ => []

/-- Lines 205-213: the brace repair applied inside the doubled-prefix branch
of the buffered handler.  The membership tests look at the stripped string
but the characters are added to the unstripped one, exactly as in the
source. -/
def braceRepair (js : List Char) : List Char :=
  let j3 := if startsWithL [lbrace] (pyStrip js) then js else lbrace :: js
  if endsWithL [rbrace] (pyStrip j3) then j3 else j3 ++ [rbrace]

/-- Lines 245-249 of the recovery path: slice from the first opening curly
bracket if one exists, otherwise (`find` returned -1) keep the string. -/
def sliceFromBrace (s : List Char) : List Char :=
  if s.any (fun c => c == lbrace) then s.dropWhile (fun c => c ≠ lbrace) else s

/-- Lines 230-261: `json.loads` on the prepared string, with the one
recovery attempt (strip, slice from the first `{`, re-parse) on failure.
Result: the fragment appended to `full_content` by this line. -/
def bufferedParsePhase (js : List Char) : List Char :=
  match parseJson js with
  | some j => extractFragment j
  | none =>
    let r := pyStrip js
    let r2 := if startsWithL [lbrace] r then r else sliceFromBrace r
    match parseJson r2 with
    | some j => extractFragment j
    | none => []

/-- Lines 181-215 of the buffered handler: prefix handling for one complete
line.  `none` means the line is skipped (`continue`) before any parse is
attempted; `some js` is the string handed to the strip / `]`-fixup / parse
stage. -/
def bufferedJsonStr (line : List Char) : Option (List Char) :=
  if startsWithL (chars "data: ") line then
    if line = chars "data: [DONE]" then none
    else
      let j1 := subDataWs line
      if startsWithL (chars "data:") j1 then
        let j2 := subDataWs j1
        if pyStrip j2 = chars "[DONE]" then none
        else some (braceRepair j2)
      else some j1
  else none

/-- Lines 217-228: `json_str = json_str.strip()` and the `]`-suffix fixups,
then the parse phase.  Result: the fragment this prepared string appends. -/
def bufferedTail (js0 : List Char) : List Char :=
  let js1 := pyStrip js0
  if endsWithL [']'] js1 then
    if js1 = chars "DONE]" then []
    else
      let js2 :=
        if startsWithL [lbrace] js1 ∧ ¬ endsWithL [rbrace] js1 = true then js1 ++ [rbrace]
        else js1
      bufferedParsePhase js2
  else bufferedParsePhase js1

/-- The fragment one reassembled line appends to `full_content` in
`handle_non_stream_response` (lines 180-264). -/
def processBufferedLine (line : List Char) : List Char :=
  match bufferedJsonStr line with
  | none => []
  | some js => bufferedTail js

/-- The accumulated `full_content` after the whole body has been consumed:
the reassembled lines of the body, each contributing its fragment. -/
def full_content (body : List Char) : List Char :=
  (nlSplit body).1.foldl (fun acc l => acc ++ processBufferedLine l) []

/-- Result of `handle_non_stream_response`: a returned Python value, a
raised `HTTPException`, or another exception escaping the function
(`data.get` on a non-dict in the fallback raises `AttributeError`). -/
inductive NSResult where
  | ok (v : Json)
  | fail (status : Nat) (detail : List Char)
  | exn (msg : List Char)

/-- `handle_non_stream_response` as a function of the body text (the
chunk-split independence is `runReassembler_spec`): accumulate fragments
line by line; if `full_content` is still falsy at end of stream, fall back
to `response.json()` and its top-level `content` field, else a 502 with a
200-character snippet of the body (lines 266-280). -/
def hnsOfBody (body : List Char) : NSResult :=
  let full := full_content body
  if full ≠ [] then NSResult.ok (Json.jstr full)
  else
    match parseJson body with
    | some (Json.jobj fs) =>
      match jLookup fs (chars "content") with
      | some v => NSResult.ok v
      | none => NSResult.ok (Json.jstr [])
    | some _ => NSResult.exn (chars "AttributeError")
    | none =>
      NSResult.fail 502 (chars "Invalid JSON response from API: " ++ body.take 200)

/-- `handle_non_stream_response` over the upstream chunk sequence delivered
by `response.aiter_text()`. -/
def handle_non_stream_response (chunks : List (List Char)) : NSResult :=
  let lines := (runReassembler chunks).1
  let full := lines.foldl (fun acc l => acc ++ processBufferedLine l) []
  if full ≠ [] then NSResult.ok (Json.jstr full)
  else
    match parseJson (catChunks chunks) with
    | some (Json.jobj fs) =>
      match jLookup fs (chars "content") with
      | some v => NSResult.ok v
      | none => NSResult.ok (Json.jstr [])
    | some _ => NSResult.exn (chars "AttributeError")
    | none =>
      NSResult.fail 502
        (chars "Invalid JSON response from API: " ++ (catChunks chunks).take 200)

theorem handle_non_stream_response_eq (chunks : List (List Char)) :
    handle_non_stream_response chunks = hnsOfBody (catChunks chunks) := by
  unfold handle_non_stream_response hnsOfBody full_content
  rw [runReassembler_spec]

/-- The streaming frame built from one forwarded line (lines 117-131):
double-prefix repair when the line starts with `"data: data:"`, then the
line followed by the SSE blank line. -/
def streamFrame (line : List Char) : List Char :=
  (if startsWithL (chars "data: data:") line then subDoubleData line else line) ++ chars "\n\n"

/-- Generator state of `handle_stream_response.generate`.  `attrDone`
stands for the function attribute `generate.done_processed` read at line
112; `localDone` is the local variable `done_processed` assigned at line
108.  The source never assigns the attribute (only the local variable), so
`attrDone` starts `false` and is never set. -/
structure GenState where
  attrDone : Bool
  localDone : Bool

/-- Lines 97-138: processing of one complete SSE line by the streaming
generator; returns the next state and the frames yielded for this line. -/
def stepLine (st : GenState) (line : List Char) : GenState × List (List Char) :=
  if startsWithL (chars "data: ") line then
    if line = chars "data: [DONE]" then
      ({ st with localDone := true }, [chars "data: [DONE]\n\n"])
    else if st.attrDone then (st, [])
    else (st, [streamFrame line])
  else (st, [])

/-- Processing a list of complete lines in order. -/
def stepLines (st : GenState) (lines : List (List Char)) : GenState × List (List Char) :=
  match lines with
  | [] => (st, [])
  | l :: ls =>
    ((stepLines (stepLine st l).1 ls).1,
      (stepLine st l).2 ++ (stepLines (stepLine st l).1 ls).2)

/-- Lines 86-95 around the per-line processing: one `aiter_text` chunk is
appended to the buffer, the complete lines are split off and processed.
State: (generator state, carried buffer, frames yielded so far). -/
def streamStep (acc : GenState × List Char × List (List Char)) (chunk : List Char) :
    GenState × List Char × List (List Char) :=
  ((stepLines acc.1 (pySplitLines (acc.2.1 ++ chunk)).1).1,
    (pySplitLines (acc.2.1 ++ chunk)).2,
    acc.2.2 ++ (stepLines acc.1 (pySplitLines (acc.2.1 ++ chunk)).1).2)

/-- All frames yielded by `handle_stream_response.generate` for a given
upstream chunk sequence (the generator ends when `aiter_text` is
exhausted; a trailing unterminated buffer is only printed, lines 141-142). -/
def streamRun (chunks : List (List Char)) : List (List Char) :=
  (chunks.foldl streamStep ({ attrDone := false, localDone := false }, [], [])).2.2

/-- The frames one line yields when `generate.done_processed` is not set -
which, since the attribute is never assigned, is the only reachable case. -/
def lineFrames (line : List Char) : List (List Char) :=
  if startsWithL (chars "data: ") line then
    if line = chars "data: [DONE]" then [chars "data: [DONE]\n\n"]
    else [streamFrame line]
  else []

/-- Frames of a list of lines. -/
def framesOfLines : List (List Char) → List (List Char)
  | [] => []
  | l :: ls => lineFrames l ++ framesOfLines ls

theorem stepLine_attrDone (st : GenState) (l : List Char) :
    ((stepLine st l).1).attrDone = st.attrDone := by
  unfold stepLine
  split
  · split
    · rfl
    · split <;> rfl
  · rfl

theorem stepLine_out {st : GenState} (l : List Char) (h : st.attrDone = false) :
    (stepLine st l).2 = lineFrames l := by
  unfold stepLine lineFrames
  split
  · split
    · rfl
    · rw [h]
      simp
  · rfl

theorem stepLines_out :
    ∀ (lines : List (List Char)) (st : GenState), st.attrDone = false →
      (stepLines st lines).2 = framesOfLines lines ∧
        ((stepLines st lines).1).attrDone = false := by
  intro lines
  induction lines with
  | nil => intro st h; exact ⟨rfl, h⟩
  | cons l ls ih =>
    intro st h
    have h1 : ((stepLine st l).1).attrDone = false := by
      rw [stepLine_attrDone]; exact h
    obtain ⟨ih1, ih2⟩ := ih (stepLine st l).1 h1
    constructor
    · simp only [stepLines, framesOfLines, ih1, stepLine_out l h]
    · simpa only [stepLines] using ih2

theorem framesOfLines_append (a b : List (List Char)) :
    framesOfLines (a ++ b) = framesOfLines a ++ framesOfLines b := by
  induction a with
  | nil => rfl
  | cons l ls ih => simp [framesOfLines, ih]

theorem streamRun_general :
    ∀ (chunks : List (List Char)) (st : GenState) (buf : List Char)
      (out : List (List Char)), st.attrDone = false → '\n' ∉ buf →
      (chunks.foldl streamStep (st, buf, out)).2.2 =
        out ++ framesOfLines ((nlSplit (buf ++ catChunks chunks)).1) := by
  intro chunks
  induction chunks with
  | nil =>
    intro st buf out hst hbuf
    simp [catChunks, nlSplit_no_nl hbuf, framesOfLines]
  | cons c cs ih =>
    intro st buf out hst hbuf
    simp only [List.foldl_cons, streamStep, pySplitLines_eq]
    obtain ⟨ho, ha⟩ := stepLines_out (nlSplit (buf ++ c)).1 st hst
    rw [ih _ _ _ ha (nlSplit_snd_no_nl (buf ++ c)), ho]
    have hassoc : buf ++ catChunks (c :: cs) = (buf ++ c) ++ catChunks cs := by
      simp [catChunks]
    rw [hassoc, nlSplit_append (buf ++ c) (catChunks cs)]
    simp [framesOfLines_append]

theorem streamRun_spec (chunks : List (List Char)) :
    streamRun chunks = framesOfLines ((nlSplit (catChunks chunks)).1) := by
  rw [streamRun, streamRun_general chunks _ [] [] rfl (by simp)]
  simp

/-- Result of `call_api`: a `StreamingResponse` wrapping the generator's
frames, a returned buffered value, or a raised `HTTPException`. -/
inductive CallResult where
  | okStream (frames : List (List Char))
  | okText (v : Json)
  | httpErr (status : Nat) (detail : List Char)

/-- What the `try` body of `call_api` (lines 34-64) produces before the
`except` clause is considered: a value, a raised `HTTPException`, or
another exception. -/
inductive TryOutcome where
  | okStream (frames : List (List Char))
  | okText (v : Json)
  | httpExc (status : Nat) (detail : List Char)
  | otherExc (msg : List Char)

/-- `str(e)` for a `fastapi.HTTPException`: `f"{status_code}: {detail}"`. -/
def pyStrHTTPException (status : Nat) (detail : List Char) : List Char :=
  chars (Nat.repr status) ++ chars ": " ++ detail

/-- `call_api` (lines 24-67), given the upstream response's status code and
body chunks.  The `try` body raises for a non-200 status (line 53) or an
empty body (line 57), otherwise hands the stream to the chosen handler;
the blanket `except Exception` (line 66) then converts any exception -
including the two `HTTPException`s just raised and anything out of
`handle_non_stream_response` - into `HTTPException(500, str(e))`. -/
def call_api (status : Nat) (chunks : List (List Char)) (is_stream : Bool) : CallResult :=
  let body := catChunks chunks
  let inner : TryOutcome :=
    if status ≠ 200 then TryOutcome.httpExc status body
    else if body = [] then TryOutcome.httpExc 502 (chars "Empty response from API")
    else if is_stream then TryOutcome.okStream (streamRun chunks)
    else
      match handle_non_stream_response chunks with
      | NSResult.ok v => TryOutcome.okText v
      | NSResult.fail st d => TryOutcome.httpExc st d
      | NSResult.exn m => TryOutcome.otherExc m
  match inner with
  | TryOutcome.okStream fs => CallResult.okStream fs
  | TryOutcome.okText v => CallResult.okText v
  | TryOutcome.httpExc st d => CallResult.httpErr 500 (pyStrHTTPException st d)
  | TryOutcome.otherExc m => CallResult.httpErr 500 m

theorem startsWithL_app (p x : List Char) : startsWithL p (p ++ x) = true := by
  induction p with
  | nil => rfl
  | cons c cs ih => simp [startsWithL, ih]

theorem endsWithL_app (p x : List Char) : endsWithL p (x ++ p) = true := by
  unfold endsWithL
  rw [List.reverse_append]
  exact startsWithL_app p.reverse x.reverse

/-- An upstream body consisting of the given lines, each newline-terminated. -/
def encodeLines : List (List Char) → List Char
  | [] => []
  | l :: ls => l ++ '\n' :: encodeLines ls

theorem nlSplit_encodeLines (ls : List (List Char)) (h : ∀ l ∈ ls, '\n' ∉ l) :
    nlSplit (encodeLines ls) = (ls, []) := by
  induction ls with
  | nil => rfl
  | cons l ls ih =>
    rw [encodeLines, nlSplit_line_append _ (h l (by simp)),
      ih (fun x hx => h x (by simp [hx]))]

theorem framesOfLines_map (lines : List (List Char))
    (h : ∀ l ∈ lines, startsWithL (chars "data: ") l = true ∧ l ≠ chars "data: [DONE]") :
    framesOfLines lines = lines.map streamFrame := by
  induction lines with
  | nil => rfl
  | cons l ls ih =>
    have h1 := h l (by simp)
    simp only [framesOfLines, lineFrames, h1.1, if_true, if_neg h1.2, List.map_cons]
    rw [ih (fun x hx => h x (by simp [hx]))]
    rfl

/-- C1: the claim says a non-200 upstream status surfaces to the caller
with the upstream's own status code and body text.  In the source, line 53
does raise `HTTPException(status_code=response.status_code,
detail=response.text)`, but the blanket `except Exception` on line 66
catches that very exception and re-raises `HTTPException(500, str(e))`,
so the relay operation actually fails with status 500 and the upstream
status only inside the detail string: for upstream status 404 with body
"nope", both modes produce status 500 with detail "404: nope". -/
theorem call_api_non200_wrapped_to_500 :
    call_api 404 [chars "nope"] false = CallResult.httpErr 500 (chars "404: nope") ∧
    call_api 404 [chars "nope"] true = CallResult.httpErr 500 (chars "404: nope") :=
  ⟨rfl, rfl⟩

/-- C2: the claim says a 200 response with an empty body fails with a
Bad Gateway-class (502) Empty Response error.  Line 57 does raise
`HTTPException(502, "Empty response from API")`, but the blanket
`except Exception` on line 66 re-wraps it, so the relay operation actually
fails with status 500 and detail "502: Empty response from API" (the 502
survives only inside the detail string), in both modes. -/
theorem call_api_empty_body_wrapped_to_500 :
    call_api 200 [] false = CallResult.httpErr 500 (chars "502: Empty response from API") ∧
    call_api 200 [] true = CallResult.httpErr 500 (chars "502: Empty response from API") :=
  ⟨rfl, rfl⟩

/-- C3: the claim says a repeated `data: [DONE]` is forwarded exactly once.
In the source the dedup guard (line 112) reads the function attribute
`generate.done_processed`, which is never assigned - line 108 sets a local
variable instead - and the guard sits after the unconditional `[DONE]`
branch (line 101) anyway, so every `data: [DONE]` line is forwarded: the
stream "data: [DONE]\ndata: [DONE]\n" yields two terminal frames. -/
theorem stream_double_done_emits_two_frames :
    streamRun [chars "data: [DONE]\ndata: [DONE]\n"] =
      [chars "data: [DONE]\n\n", chars "data: [DONE]\n\n"] :=
  rfl

/-- C4 counterexample: the claim says brace repair applies to every
buffered data line whose payload lacks braces, and that the payload
`"choices":[...]` yields fragment "hi".  In the source the repair
(lines 205-213) sits inside the `if json_str.startswith("data:")` branch
(line 196), i.e. it runs only for doubled-prefix lines: with a single
`data: ` prefix the example payload is never repaired, no fragment is
produced, and the whole buffered operation falls back and fails with 502
instead of returning "hi". -/
theorem buffered_missing_braces_no_fragment :
    processBufferedLine
        (chars "data: \"choices\":[\x7b\"delta\":\x7b\"content\":\"hi\"\x7d\x7d]") = [] ∧
    handle_non_stream_response
        [chars "data: \"choices\":[\x7b\"delta\":\x7b\"content\":\"hi\"\x7d\x7d]\n"] =
      NSResult.fail 502
        (chars "Invalid JSON response from API: data: \"choices\":[\x7b\"delta\":\x7b\"content\":\"hi\"\x7d\x7d]\n") :=
  ⟨rfl, rfl⟩

/-- C4 amended: brace repair runs only on lines carrying a doubled data
prefix: for every line `"data: data:" ++ rest` (not reclassified as a
`[DONE]` marker) the string handed onward is exactly `braceRepair` of the
twice-stripped payload - one `\x7b` prepended if missing, one `\x7d`
appended if missing - and the doubled-prefix form of the spec's example
payload is repaired to valid JSON and yields the fragment "hi". -/
theorem buffered_brace_repair_needs_double_pfx :
    (∀ rest : List Char,
      bufferedJsonStr (chars "data: data:" ++ rest) =
        if pyStrip (rest.dropWhile pyWs) = chars "[DONE]" then none
        else some (braceRepair (rest.dropWhile pyWs))) ∧
    handle_non_stream_response
        [chars "data: data: \"choices\":[\x7b\"delta\":\x7b\"content\":\"hi\"\x7d\x7d]\n"] =
      NSResult.ok (Json.jstr (chars "hi")) :=
  ⟨fun _ => rfl, rfl⟩

/-- C5: in buffered mode, if after the whole stream is consumed the
accumulated content is still empty, the entire original body is parsed as
one JSON object and its top-level `content` field is returned; if the body
is not valid JSON at all, `handle_non_stream_response` raises 502 with the
message containing the first 200 characters of the body.  (At the
`call_api` level this 502, like every `HTTPException`, is then re-wrapped
into a 500 by the blanket `except` - see C1/C2.) -/
theorem buffered_fallback_behavior (chunks : List (List Char))
    (hempty : full_content (catChunks chunks) = []) :
    (parseJson (catChunks chunks) = none →
      handle_non_stream_response chunks =
        NSResult.fail 502
          (chars "Invalid JSON response from API: " ++ (catChunks chunks).take 200)) ∧
    (∀ fs, parseJson (catChunks chunks) = some (Json.jobj fs) →
      handle_non_stream_response chunks =
        NSResult.ok
          (match jLookup fs (chars "content") with
            | some v => v
            | none => Json.jstr [])) := by
  have he := handle_non_stream_response_eq chunks
  constructor
  · intro hp
    rw [he]
    simp [hnsOfBody, hempty, hp]
  · intro fs hp
    rw [he]
    simp only [hnsOfBody, hempty, hp]
    simp only [ne_eq, not_true_eq_false, if_false]
    cases jLookup fs (chars "content") <;> rfl

theorem buffered_fallback_behavior_witness :
    full_content (catChunks [chars "bogus\n"]) = [] ∧
    handle_non_stream_response [chars "bogus\n"] =
      NSResult.fail 502 (chars "Invalid JSON response from API: bogus\n") :=
  ⟨rfl, (buffered_fallback_behavior [chars "bogus\n"] rfl).1 rfl⟩

/-- C6: the line reassembler's result depends only on the concatenation of
the chunks, never on the split points (so any two chunkings of the same
byte stream give the same line sequence), and after all chunks the carried
buffer is exactly the suffix of everything received that follows the last
newline: it contains no newline and everything before it ends with a
newline (or is empty).  Because the statement covers every chunk list, it
in particular describes the state between any two chunk arrivals (apply it
to the prefix of chunks received so far). -/
theorem reassembly_split_invariance (chunks : List (List Char)) :
    runReassembler chunks =
      ((nlSplit (catChunks chunks)).1, afterLastNl (catChunks chunks)) ∧
    (∀ chunks2, catChunks chunks2 = catChunks chunks →
      runReassembler chunks2 = runReassembler chunks) ∧
    '\n' ∉ (runReassembler chunks).2 ∧
    (∃ pre, catChunks chunks = pre ++ (runReassembler chunks).2 ∧
      (pre = [] ∨ ∃ q, pre = q ++ ['\n'])) := by
  refine ⟨runReassembler_spec chunks, ?_, ?_, ?_⟩
  · intro c2 h2
    rw [runReassembler_spec, runReassembler_spec, h2]
  · rw [runReassembler_spec]
    exact afterLastNl_no_nl (catChunks chunks)
  · rw [runReassembler_spec]
    exact afterLastNl_is_suffix (catChunks chunks)

theorem reassembly_split_invariance_witness :
    runReassembler [chars "ab", chars "\ncd"] = runReassembler [chars "ab\nc", chars "d"] ∧
    (runReassembler [chars "ab", chars "\ncd"]).2 = chars "cd" :=
  ⟨((reassembly_split_invariance [chars "ab", chars "\ncd"]).2.1
      [chars "ab\nc", chars "d"] rfl).symm,
    rfl⟩

/-- C7: a well-formed upstream stream of N data lines followed by one
terminal marker, however chunked, is relayed as exactly the N data frames
in upstream order followed by the terminal frame - N+1 frames in all, each
ending in the SSE blank line ("\n\n"). -/
theorem streaming_passthrough_fidelity (lines chunks : List (List Char))
    (hl : ∀ l ∈ lines,
      startsWithL (chars "data: ") l = true ∧ l ≠ chars "data: [DONE]" ∧ '\n' ∉ l)
    (hc : catChunks chunks = encodeLines (lines ++ [chars "data: [DONE]"])) :
    streamRun chunks = lines.map streamFrame ++ [chars "data: [DONE]\n\n"] ∧
    (streamRun chunks).length = lines.length + 1 ∧
    ∀ f ∈ streamRun chunks, endsWithL (chars "\n\n") f = true := by
  have hnl : ∀ l ∈ lines ++ [chars "data: [DONE]"], '\n' ∉ l := by
    intro l hmem
    rcases List.mem_append.mp hmem with h | h
    · exact (hl l h).2.2
    · simp only [List.mem_singleton] at h
      subst h
      decide
  have h1 : streamRun chunks = lines.map streamFrame ++ [chars "data: [DONE]\n\n"] := by
    rw [streamRun_spec, hc, nlSplit_encodeLines _ hnl]
    rw [framesOfLines_append,
      framesOfLines_map lines (fun l hm => ⟨(hl l hm).1, (hl l hm).2.1⟩)]
    rfl
  refine ⟨h1, ?_, ?_⟩
  · rw [h1]
    simp
  · intro f hf
    rw [h1] at hf
    rcases List.mem_append.mp hf with h | h
    · obtain ⟨l, _, rfl⟩ := List.mem_map.mp h
      unfold streamFrame
      exact endsWithL_app (chars "\n\n") _
    · simp only [List.mem_singleton] at h
      subst h
      decide

theorem streaming_passthrough_fidelity_witness :
    streamRun [chars "data: a\ndata: b\ndata: [DONE]\n"] =
      [chars "data: a\n\n", chars "data: b\n\n", chars "data: [DONE]\n\n"] :=
  (streaming_passthrough_fidelity [chars "data: a", chars "data: b"]
    [chars "data: a\ndata: b\ndata: [DONE]\n"] (by decide) (by decide)).1

/-- C8: feeding the three upstream lines
`data: \x7b"choices":[\x7b"delta":\x7b"content":"Hel"\x7d\x7d]\x7d`,
`data: \x7b"choices":[\x7b"delta":\x7b"content":"lo"\x7d\x7d]\x7d` and
`data: [DONE]`, each newline-terminated and split into chunks in any way,
the buffered handler returns the string "Hello". -/
theorem buffered_end_to_end_hello (chunks : List (List Char))
    (hc : catChunks chunks =
      chars "data: \x7b\"choices\":[\x7b\"delta\":\x7b\"content\":\"Hel\"\x7d\x7d]\x7d\ndata: \x7b\"choices\":[\x7b\"delta\":\x7b\"content\":\"lo\"\x7d\x7d]\x7d\ndata: [DONE]\n") :
    handle_non_stream_response chunks = NSResult.ok (Json.jstr (chars "Hello")) := by
  rw [handle_non_stream_response_eq, hc]
  rfl

theorem buffered_end_to_end_hello_witness :
    handle_non_stream_response
        [chars "data: \x7b\"choices\":[\x7b\"delta\":\x7b\"content\":\"Hel\"\x7d\x7d]\x7d\ndata: \x7b\"choices\":[\x7b\"delta\":\x7b\"content\":\"lo\"\x7d\x7d]\x7d\ndata: [DONE]\n"] =
      NSResult.ok (Json.jstr (chars "Hello")) :=
  buffered_end_to_end_hello
    [chars "data: \x7b\"choices\":[\x7b\"delta\":\x7b\"content\":\"Hel\"\x7d\x7d]\x7d\ndata: \x7b\"choices\":[\x7b\"delta\":\x7b\"content\":\"lo\"\x7d\x7d]\x7d\ndata: [DONE]\n"]
    rfl

/-- C9: a line starting with a doubled data prefix has exactly one
duplicate layer stripped in both modes.  Streaming: the generator forwards
`"data: data:" ++ rest` as the single frame `"data:" ++ rest ++ "\n\n"`
(one layer removed, the rest untouched).  Buffered: the two successive
`re.sub(r'^data:\s*', '', _)` strips turn the same line into the payload
with both the expected prefix and exactly one duplicate layer removed.
In particular `data: data: \x7b"x":1\x7d` normalizes to
`data: \x7b"x":1\x7d`. -/
theorem double_data_pfx_stripped_once :
    (∀ rest : List Char,
      (stepLine { attrDone := false, localDone := false }
          (chars "data: data:" ++ rest)).2 =
        [chars "data:" ++ (rest ++ chars "\n\n")]) ∧
    (∀ rest : List Char,
      subDataWs (subDataWs (chars "data: data:" ++ rest)) = rest.dropWhile pyWs) ∧
    subDoubleData (chars "data: data: \x7b\"x\":1\x7d") = chars "data: \x7b\"x\":1\x7d" :=
  ⟨fun _ => rfl, fun _ => rfl, rfl⟩

/-- C10: forwarding the terminal marker does not close the relay: in a
stream whose lines are `pre`, then `data: [DONE]`, then `post`, every
data-prefixed line of `post` is still forwarded as a frame after the
terminal frame, and the generator's output ends only because the upstream
chunk sequence is exhausted. -/
theorem stream_forwards_after_done (pre post chunks : List (List Char))
    (hpre : ∀ l ∈ pre,
      startsWithL (chars "data: ") l = true ∧ l ≠ chars "data: [DONE]" ∧ '\n' ∉ l)
    (hpost : ∀ l ∈ post,
      startsWithL (chars "data: ") l = true ∧ l ≠ chars "data: [DONE]" ∧ '\n' ∉ l)
    (hc : catChunks chunks = encodeLines (pre ++ chars "data: [DONE]" :: post)) :
    streamRun chunks =
      pre.map streamFrame ++ chars "data: [DONE]\n\n" :: post.map streamFrame := by
  have hnl : ∀ l ∈ pre ++ chars "data: [DONE]" :: post, '\n' ∉ l := by
    intro l hmem
    rcases List.mem_append.mp hmem with h | h
    · exact (hpre l h).2.2
    · rcases List.mem_cons.mp h with h | h
      · subst h
        decide
      · exact (hpost l h).2.2
  rw [streamRun_spec, hc, nlSplit_encodeLines _ hnl]
  rw [framesOfLines_append,
    framesOfLines_map pre (fun l hm => ⟨(hpre l hm).1, (hpre l hm).2.1⟩)]
  show _ ++ framesOfLines (chars "data: [DONE]" :: post) = _
  rw [framesOfLines,
    framesOfLines_map post (fun l hm => ⟨(hpost l hm).1, (hpost l hm).2.1⟩)]
  rfl

theorem stream_forwards_after_done_witness :
    streamRun [chars "data: a\ndata: [DONE]\ndata: b\n"] =
      [chars "data: a\n\n", chars "data: [DONE]\n\n", chars "data: b\n\n"] :=
  stream_forwards_after_done [chars "data: a"] [chars "data: b"]
    [chars "data: a\ndata: [DONE]\ndata: b\n"] (by decide) (by decide) rfl
